import Mathlib

/-!
Verification of `VeraSnap/scripts/vcp_validator.py`.

The validator is a small command-line program:

* `argparse` with one required flag `--input-dir`;
* `pattern = os.path.join(args.input_dir, "*.json")`; `files = glob.glob(pattern)`;
* if `files` is empty it prints `No proof JSON files found in: <input-dir>` and
  returns `1`;
* otherwise, for each path in `files` (in discovery order) it opens the path as
  a UTF-8 text file, runs `json.load` on it, and prints `OK: <path>`;
* finally it returns `0`; the process exits via `sys.exit(main())`.

The embedding below models the filesystem as a flat list of directories (each a
named list of entries, where an entry is a regular file with its raw content or
a subdirectory), and models the Python standard-library behaviour the script
relies on: `glob` pattern matching with `*` and `?` wildcards and the leading
dot (hidden file) rule, `os.path.join` / `os.path.split`, `argparse`'s exit
code `2` on a missing required argument, and CPython's termination with exit
status `1` on an uncaught exception.  Success of `json.load` (which subsumes
UTF-8 decoding of the file content) is abstracted as a predicate
`parseOk : String → Bool` on raw file contents, since the script never inspects
the parsed value.  A run is modelled as the list of observable events (file
opens and stdout lines, in order) together with a terminal result.
-/

namespace VcpValidator

/-- A directory entry: a regular file with its name and raw byte content
(modelled as a string), or a subdirectory.  The children of a subdirectory are
carried only to express that the validator never descends into them. -/
inductive Entry where
  | file (name : String) (content : String)
  | dir (name : String) (children : List Entry)

/-- The name of a directory entry. -/
def Entry.name : Entry → String
  | .file n _ => n
  | .dir n _ => n

/-- A filesystem: the directories visible to `glob`, each with its listing. -/
abbrev FS := List (String × List Entry)

/-- Python `glob._ishidden`: a path component is hidden when it starts with a
dot. -/
def isHidden : List Char → Bool
  | [] => false
  | c :: _ => c == '.'

/-- Python `glob.has_magic`: the pattern contains one of the glob
metacharacters `*`, `?`, `[` (the regular expression `[*?[]`). -/
def hasMagic (s : String) : Bool :=
  s.data.any fun c => c == '*' || c == '?' || c == '['

/-- All suffixes of a list, longest first (the candidate remainders after a
`*` wildcard consumes a prefix). -/
def suffixes : List Char → List (List Char)
  | [] => [[]]
  | c :: cs => (c :: cs) :: suffixes cs

/-- Python `fnmatch` matching for the pattern features the validator's
patterns can contain: `*` matches any (possibly empty) sequence of characters,
`?` matches exactly one character, and every other character matches itself.
Character classes `[...]` are not modelled (no pattern built by the script
contains a well-formed class; `hasMagic` still reports `[` as magic, as the
source does). -/
def globMatch : List Char → List Char → Bool
  | [], s => s.isEmpty
  | p :: ps, s =>
    if p == '*' then (suffixes s).any fun t => globMatch ps t
    else
      match s with
      | [] => false
      | c :: cs => (p == '?' || p == c) && globMatch ps cs

/-- The literal basename pattern from `os.path.join(args.input_dir, "*.json")`
at `vcp_validator.py:19`. -/
def jsonPattern : String := "*.json"

/-- Whether `glob` matches a directory-entry name against `*.json`: the
`fnmatch` test plus the hidden-file rule (the pattern `*.json` is not hidden,
so names starting with a dot are filtered out before matching). -/
def matchesJsonGlob (name : String) : Bool :=
  !isHidden name.data && globMatch jsonPattern.data name.data

/-- Python `os.path.join(d, b)` for a non-absolute `b` (the script only ever
joins with `*.json` and `glob` only ever joins with plain names): empty `d`
yields `b`, a `d` ending in a separator is used as-is, otherwise a `/` is
inserted. -/
def joinPath (d b : String) : String :=
  if d.data == [] then b
  else if d.data.getLast? == some '/' then d ++ b
  else d ++ "/" ++ b

/-- The directory component `os.path.split` extracts from the joined pattern
`<input-dir>/*.json`: the input directory with trailing slashes stripped,
except that an all-slash directory (filesystem root) is kept as written. -/
def globDirname (d : String) : String :=
  let t := (d.data.reverse.dropWhile fun c => c == '/').reverse
  if t == [] then d else String.mk t

/-- The per-directory-name test `glob` applies to the directory component of
the pattern: when the component contains a metacharacter, `glob` enumerates
directories matching it as a pattern (with the hidden rule); otherwise only
the literal directory is consulted, and a nonexistent literal directory
contributes nothing (its `os.listdir` error is swallowed). -/
def dirFilter (d : String) (name : String) : Bool :=
  if hasMagic d then
    (isHidden d.data || !isHidden name.data) && globMatch d.data name.data
  else name == d

/-- The directories `glob` scans for the directory component `d` of the
pattern. -/
def matchedDirs (fs : FS) (d : String) : FS :=
  fs.filter fun de => dirFilter d de.1

/-- The entries of one directory listing that the basename pattern `*.json`
matches. -/
def matchedEntries (entries : List Entry) : List Entry :=
  entries.filter fun e => matchesJsonGlob e.name

/-- The matched entries of one directory, paired with the paths `glob`
reports for them (`os.path.join` of the directory name and the entry name). -/
def entriesToPairs (dn : String) (es : List Entry) : List (String × Entry) :=
  (matchedEntries es).map fun e => (joinPath dn e.name, e)

/-- Concatenation of the per-directory results, in directory order. -/
def globAll : FS → List (String × Entry)
  | [] => []
  | (dn, es) :: rest => entriesToPairs dn es ++ globAll rest

/-- The full result of `glob.glob(os.path.join(args.input_dir, "*.json"))` at
`vcp_validator.py:19-20`: each matched path with the entry it denotes. -/
def globJsonEntries (fs : FS) (d : String) : List (String × Entry) :=
  globAll (matchedDirs fs (globDirname d))

/-- An observable step of a run: opening a path for reading, or writing one
line to standard output. -/
inductive Event where
  | opened (path : String)
  | printed (line : String)
deriving DecidableEq, Repr

/-- How a run terminates: a normal return from `main` (its value becomes the
process exit status via `sys.exit(main())` at `vcp_validator.py:35`), the
`argparse` usage error for a missing required argument (`SystemExit(2)`), or
an exception escaping `main` uncaught (CPython then prints a traceback and
terminates the interpreter with exit status `1`). -/
inductive Result where
  | exit (code : Nat)
  | usage
  | crash
deriving DecidableEq, Repr

/-- The operating-system exit status of each terminal result: the returned
code, `2` for an `argparse` usage error, and `1` for an uncaught exception
(CPython's fixed status for abnormal termination). -/
def exitStatus : Result → Nat
  | .exit c => c
  | .usage => 2
  | .crash => 1

/-- Whether opening and `json.load`-ing an entry succeeds: a regular file
succeeds exactly when its content decodes and parses (`parseOk`); opening a
directory as a text file raises `IsADirectoryError`. -/
def entryOk (parseOk : String → Bool) : Entry → Bool
  | .file _ c => parseOk c
  | .dir _ _ => false

/-- The validation loop at `vcp_validator.py:26-29`: for each matched path in
order, open it (event `opened`), run `json.load`, and print `OK: <path>`
(event `printed`).  Returns the events emitted and `true` when the loop
completes, `false` when an exception (parse failure, or `IsADirectoryError`
on open) aborts it; no later path is opened, parsed, or reported. -/
def processFiles (parseOk : String → Bool) : List (String × Entry) → List Event × Bool
  | [] => ([], true)
  | (path, e) :: rest =>
    match e with
    | .dir _ _ => ([.opened path], false)
    | .file _ c =>
      if parseOk c then
        let r := processFiles parseOk rest
        (.opened path :: .printed ("OK: " ++ path) :: r.1, r.2)
      else
        ([.opened path], false)

/-- The lines a list of events wrote to standard output, in order. -/
def stdoutOf (evs : List Event) : List String :=
  evs.filterMap fun ev =>
    match ev with
    | .printed l => some l
    | .opened _ => none

/-- The whole program (`main` plus `sys.exit(main())`), as a function of the
parse predicate, the filesystem, and the `--input-dir` argument (`none` when
the flag is omitted, in which case `argparse` errors out before any filesystem
access).  Follows `vcp_validator.py:14-31` line by line: build the pattern,
glob it, print the no-files message and return `1` on an empty match list,
otherwise run the validation loop and return `0` (or crash). -/
def runMain (parseOk : String → Bool) (fs : FS) (inputDirArg : Option String) :
    List Event × Result :=
  match inputDirArg with
  | none => ([], .usage)
  | some d =>
    let files := globJsonEntries fs d
    if files.isEmpty then
      ([.printed ("No proof JSON files found in: " ++ d)], .exit 1)
    else
      let r := processFiles parseOk files
      (r.1, if r.2 then .exit 0 else .crash)

/-- The filesystem after a run: the script opens files in read-only mode
(`open(path, "r", ...)`) and never writes, creates, or deletes anything, so a
run leaves the filesystem unchanged. -/
def fsAfterRun (_parseOk : String → Bool) (fs : FS) (_arg : Option String) : FS := fs

/-! ### Spec-side definitions

These restate conditions in the spec's own vocabulary ("names ending in
`.json`", "names beginning with a dot") so the glob machinery above can be
compared against them. -/

/-- Boolean equality of character lists, spelled out. -/
def listEqB : List Char → List Char → Bool
  | [], [] => true
  | c :: cs, d :: ds => c == d && listEqB cs ds
  | _, _ => false

/-- Whether `suf` is a suffix of the second list: the spec's "name ends in
`.json`" reads `hasSuffix jsonSuffix name.data`. -/
def hasSuffix (suf : List Char) : List Char → Bool
  | [] => listEqB suf []
  | c :: cs => listEqB suf (c :: cs) || hasSuffix suf cs

/-- The characters of the literal suffix `.json`. -/
def jsonSuffix : List Char := ['.', 'j', 's', 'o', 'n']

/-- A pattern with no `*` and no `?` wildcards. -/
def isLiteralPat (p : List Char) : Bool :=
  p.all fun c => !(c == '*') && !(c == '?')

/-- The event trace of a run of the loop over paths that all validate: each
path is opened and then acknowledged on stdout. -/
def goodEvents : List String → List Event
  | [] => []
  | p :: ps => Event.opened p :: Event.printed ("OK: " ++ p) :: goodEvents ps

/-- Pointwise shape agreement of two entries: same name and same kind; file
contents (and subdirectory listings, which the program never reads) may
differ. -/
def Entry.shapeEq : Entry → Entry → Bool
  | .file n _, .file m _ => n == m
  | .dir n _, .dir m _ => n == m
  | _, _ => false

/-- Pointwise shape agreement of two directory listings. -/
def entriesShapeEq : List Entry → List Entry → Bool
  | [], [] => true
  | e :: es, f :: fs => Entry.shapeEq e f && entriesShapeEq es fs
  | _, _ => false

/-- Pointwise shape agreement of two filesystems: the same directories, each
pair of listings agreeing in shape. -/
def fsShapeEq : FS → FS → Bool
  | [], [] => true
  | (n, es) :: ds, (m, gs) :: ds2 => n == m && entriesShapeEq es gs && fsShapeEq ds ds2
  | _, _ => false

/-! ### Helper lemmas -/

theorem globMatch_literal (p : List Char) (hp : isLiteralPat p = true) :
    ∀ s, globMatch p s = listEqB p s := by
  induction p with
  | nil => intro s; cases s <;> simp [globMatch, listEqB]
  | cons c cs ih =>
    have hp' := hp
    simp only [isLiteralPat, List.all_cons, Bool.and_eq_true, Bool.not_eq_true'] at hp'
    have hc : (c == '*') = false ∧ (c == '?') = false := ⟨hp'.1.1, hp'.1.2⟩
    intro s
    cases s with
    | nil => simp [globMatch, listEqB, hc.1]
    | cons d ds =>
      have hcs : isLiteralPat cs = true := by
        simp only [isLiteralPat, List.all_cons, Bool.and_eq_true] at hp
        exact hp.2
      simp [globMatch, listEqB, hc.1, hc.2, ih hcs ds]

theorem globMatch_star (p : List Char) (s : List Char) :
    globMatch ('*' :: p) s = (suffixes s).any fun t => globMatch p t := by
  simp [globMatch]

theorem globMatch_star_hasSuffix (p : List Char) (hp : isLiteralPat p = true) :
    ∀ s, globMatch ('*' :: p) s = hasSuffix p s := by
  intro s
  induction s with
  | nil => simp [globMatch_star, suffixes, hasSuffix, globMatch_literal p hp]
  | cons c cs ih =>
    rw [globMatch_star] at ih ⊢
    simp only [globMatch_literal p hp] at ih ⊢
    simp [suffixes, List.any_cons, hasSuffix, ih]

theorem matchesJsonGlob_eq (name : String) :
    matchesJsonGlob name = (!isHidden name.data && hasSuffix jsonSuffix name.data) := by
  have h1 : jsonPattern.data = '*' :: jsonSuffix := rfl
  have h2 : isLiteralPat jsonSuffix = true := by decide
  rw [matchesJsonGlob, h1, globMatch_star_hasSuffix jsonSuffix h2]

theorem hidden_not_matched (name : String) (h : isHidden name.data = true) :
    matchesJsonGlob name = false := by
  simp [matchesJsonGlob, h]

theorem processFiles_allOk (parseOk : String → Bool) :
    ∀ l : List (String × Entry), (∀ pe ∈ l, entryOk parseOk pe.2 = true) →
      processFiles parseOk l = (goodEvents (l.map Prod.fst), true) := by
  intro l
  induction l with
  | nil => intro _; rfl
  | cons pe rest ih =>
    intro h
    obtain ⟨path, e⟩ := pe
    have he : entryOk parseOk e = true := h (path, e) (List.mem_cons_self _ _)
    cases e with
    | dir n ch => simp [entryOk] at he
    | file n c =>
      have hr := ih fun q hq => h q (List.mem_cons_of_mem _ hq)
      simp only [entryOk] at he
      simp [processFiles, he, hr, goodEvents]

theorem processFiles_crash (parseOk : String → Bool) :
    ∀ (pre : List (String × Entry)) (bad : String × Entry) (post : List (String × Entry)),
      (∀ pe ∈ pre, entryOk parseOk pe.2 = true) →
      entryOk parseOk bad.2 = false →
      processFiles parseOk (pre ++ bad :: post) =
        (goodEvents (pre.map Prod.fst) ++ [Event.opened bad.1], false) := by
  intro pre
  induction pre with
  | nil =>
    intro bad post _ hbad
    obtain ⟨path, e⟩ := bad
    cases e with
    | dir n ch => rfl
    | file n c =>
      simp only [entryOk] at hbad
      simp [processFiles, hbad, goodEvents]
  | cons pe rest ih =>
    intro bad post h hbad
    obtain ⟨path, e⟩ := pe
    have he : entryOk parseOk e = true := h (path, e) (List.mem_cons_self _ _)
    cases e with
    | dir n ch => simp [entryOk] at he
    | file n c =>
      have hr := ih bad post (fun q hq => h q (List.mem_cons_of_mem _ hq)) hbad
      simp only [entryOk] at he
      simp [processFiles, he, hr, goodEvents]

theorem processFiles_opened_mem (parseOk : String → Bool) :
    ∀ (l : List (String × Entry)) (q : String),
      Event.opened q ∈ (processFiles parseOk l).1 → q ∈ l.map Prod.fst := by
  intro l
  induction l with
  | nil => intro q hq; simp [processFiles] at hq
  | cons pe rest ih =>
    intro q hq
    obtain ⟨path, e⟩ := pe
    cases e with
    | dir n ch =>
      simp only [processFiles, List.mem_singleton] at hq
      cases hq
      simp
    | file n c =>
      by_cases hc : parseOk c = true
      · simp only [processFiles, hc, if_pos, List.mem_cons] at hq
        rcases hq with h1 | h1 | h1
        · cases h1; simp
        · cases h1
        · exact List.mem_cons_of_mem _ (ih q h1)
      · rw [Bool.not_eq_true] at hc
        simp only [processFiles, hc, Bool.false_eq_true, if_false,
          List.mem_singleton] at hq
        cases hq
        simp

theorem stdoutOf_goodEvents : ∀ paths : List String,
    stdoutOf (goodEvents paths) = paths.map (fun p => "OK: " ++ p) := by
  intro paths
  induction paths with
  | nil => rfl
  | cons p ps ih => simp [goodEvents, stdoutOf, List.filterMap_cons] at ih ⊢; exact ih

theorem stdoutOf_append (a b : List Event) :
    stdoutOf (a ++ b) = stdoutOf a ++ stdoutOf b := by
  simp [stdoutOf, List.filterMap_append]

theorem runMain_some (parseOk : String → Bool) (fs : FS) (d : String) :
    runMain parseOk fs (some d) =
      if (globJsonEntries fs d).isEmpty then
        ([Event.printed ("No proof JSON files found in: " ++ d)], Result.exit 1)
      else
        ((processFiles parseOk (globJsonEntries fs d)).1,
          if (processFiles parseOk (globJsonEntries fs d)).2 then Result.exit 0
          else Result.crash) := rfl

theorem shapeEq_name : ∀ {e f : Entry}, Entry.shapeEq e f = true → e.name = f.name := by
  intro e f h
  cases e <;> cases f <;>
    simp only [Entry.shapeEq, beq_iff_eq] at h <;>
    first
    | exact absurd h (by simp)
    | simp [Entry.name, h]

theorem matchedEntries_names : ∀ {es gs : List Entry}, entriesShapeEq es gs = true →
    (matchedEntries es).map Entry.name = (matchedEntries gs).map Entry.name := by
  intro es
  induction es with
  | nil =>
    intro gs h
    cases gs with
    | nil => rfl
    | cons g gs => simp [entriesShapeEq] at h
  | cons e es ih =>
    intro gs h
    cases gs with
    | nil => simp [entriesShapeEq] at h
    | cons g gs =>
      simp only [entriesShapeEq, Bool.and_eq_true] at h
      have hname := shapeEq_name h.1
      have htail := ih h.2
      simp only [matchedEntries, List.filter_cons, hname] at htail ⊢
      by_cases hm : matchesJsonGlob g.name = true
      · simp [hm, hname, htail]
      · rw [Bool.not_eq_true] at hm
        simp [hm, htail]

theorem matchedDirs_shape (d : String) : ∀ {fs1 fs2 : FS}, fsShapeEq fs1 fs2 = true →
    fsShapeEq (matchedDirs fs1 d) (matchedDirs fs2 d) = true := by
  intro fs1
  induction fs1 with
  | nil =>
    intro fs2 h
    cases fs2 with
    | nil => exact h
    | cons g gs => simp [fsShapeEq] at h
  | cons de ds ih =>
    intro fs2 h
    obtain ⟨n, es⟩ := de
    cases fs2 with
    | nil => simp [fsShapeEq] at h
    | cons ge gs =>
      obtain ⟨m, gsE⟩ := ge
      simp only [fsShapeEq, Bool.and_eq_true] at h
      obtain ⟨⟨hn, hsh⟩, htail⟩ := h
      have hnm : n = m := by simpa using hn
      subst hnm
      simp only [matchedDirs, List.filter_cons]
      by_cases hf : dirFilter d n = true
      · simp only [hf, if_pos]
        simp only [fsShapeEq, Bool.and_eq_true]
        exact ⟨⟨by simp, hsh⟩, ih htail⟩
      · rw [Bool.not_eq_true] at hf
        simp only [hf, Bool.false_eq_true, if_false]
        exact ih htail

theorem entriesToPairs_paths (dn : String) (es : List Entry) :
    (entriesToPairs dn es).map Prod.fst =
      ((matchedEntries es).map Entry.name).map fun s => joinPath dn s := by
  simp [entriesToPairs, List.map_map, Function.comp]

theorem globAll_paths : ∀ {ds1 ds2 : FS}, fsShapeEq ds1 ds2 = true →
    (globAll ds1).map Prod.fst = (globAll ds2).map Prod.fst := by
  intro ds1
  induction ds1 with
  | nil =>
    intro ds2 h
    cases ds2 with
    | nil => rfl
    | cons g gs => simp [fsShapeEq] at h
  | cons de ds ih =>
    intro ds2 h
    obtain ⟨n, es⟩ := de
    cases ds2 with
    | nil => simp [fsShapeEq] at h
    | cons ge gs =>
      obtain ⟨m, gsE⟩ := ge
      simp only [fsShapeEq, Bool.and_eq_true] at h
      obtain ⟨⟨hn, hsh⟩, htail⟩ := h
      have hnm : n = m := by simpa using hn
      subst hnm
      simp only [globAll, List.map_append]
      rw [ih htail, entriesToPairs_paths, entriesToPairs_paths,
        matchedEntries_names hsh]

theorem globJsonEntries_paths {fs1 fs2 : FS} (d : String) (h : fsShapeEq fs1 fs2 = true) :
    (globJsonEntries fs1 d).map Prod.fst = (globJsonEntries fs2 d).map Prod.fst :=
  globAll_paths (matchedDirs_shape (globDirname d) h)

theorem isEmpty_of_mapFst {α β : Type} {l l' : List (α × β)}
    (h : l.map Prod.fst = l'.map Prod.fst) : l.isEmpty = l'.isEmpty := by
  cases l <;> cases l' <;> simp_all

theorem mem_globAll : ∀ {ds : FS} {pe : String × Entry}, pe ∈ globAll ds →
    ∃ de, de ∈ ds ∧ pe.2 ∈ matchedEntries de.2 ∧ pe.1 = joinPath de.1 pe.2.name := by
  intro ds
  induction ds with
  | nil => intro pe h; cases h
  | cons de rest ih =>
    intro pe h
    obtain ⟨dn, es⟩ := de
    rcases List.mem_append.mp h with h1 | h1
    · simp only [entriesToPairs, List.mem_map] at h1
      obtain ⟨e, he, heq⟩ := h1
      refine ⟨(dn, es), List.mem_cons_self _ _, ?_, ?_⟩
      · rw [← heq]; exact he
      · rw [← heq]
    · obtain ⟨de2, hmem, h2, h3⟩ := ih h1
      exact ⟨de2, List.mem_cons_of_mem _ hmem, h2, h3⟩

theorem mem_matchedEntries {e : Entry} {es : List Entry} (h : e ∈ matchedEntries es) :
    e ∈ es ∧ matchesJsonGlob e.name = true := by
  simpa using List.mem_filter.mp h

theorem runMain_opened_mem (parseOk : String → Bool) (fs : FS) (d : String) (q : String)
    (h : Event.opened q ∈ (runMain parseOk fs (some d)).1) :
    q ∈ (globJsonEntries fs d).map Prod.fst := by
  rw [runMain_some] at h
  by_cases he : (globJsonEntries fs d).isEmpty = true
  · simp [he] at h
  · rw [Bool.not_eq_true] at he
    simp only [he, Bool.false_eq_true, if_false] at h
    exact processFiles_opened_mem parseOk _ q h

/-! ### Concrete fixtures for witnesses and counterexamples -/

/-- A parse predicate accepting everything. -/
def pAlways : String → Bool := fun _ => true

/-- A parse predicate accepting exactly the content `good`. -/
def pGood : String → Bool := fun c => c == "good"

/-- A parse predicate accepting the contents `good` and `also`. -/
def pTwo : String → Bool := fun c => c == "good" || c == "also"

/-- `/tmp/d` holding two well-formed JSON files. -/
def fsAB : FS := [("/tmp/d", [Entry.file "a.json" "good", Entry.file "b.json" "good"])]

/-- `/tmp/d` holding one well-formed and then one malformed JSON file. -/
def fsBad : FS := [("/tmp/d", [Entry.file "a.json" "good", Entry.file "b.json" "bad"])]

/-- `/tmp/d` holding only a hidden file whose name ends in `.json`. -/
def fsHidden : FS := [("/tmp/d", [Entry.file ".a.json" "good"])]

/-- `/tmp/d` holding a subdirectory whose name ends in `.json`. -/
def fsSub : FS := [("/tmp/d", [Entry.dir "sub.json" []])]

/-- Two sibling directories `d1` and `d2`, each with one JSON file. -/
def fsSpan : FS :=
  [("d1", [Entry.file "a.json" "good"]), ("d2", [Entry.file "b.json" "good"])]

/-- An existing but empty directory `/tmp/e`. -/
def fsEmptyDir : FS := [("/tmp/e", [])]

/-- `/tmp/d` with one file, first content variant. -/
def fsOne1 : FS := [("/tmp/d", [Entry.file "a.json" "good"])]

/-- `/tmp/d` with the same shape as `fsOne1` but different file content. -/
def fsOne2 : FS := [("/tmp/d", [Entry.file "a.json" "also"])]

/-! ### The claims -/

/-- C1: for a directory whose glob yields at least one match, all of them
regular files whose contents decode and parse, the run returns exit status 0
and prints exactly one `OK: <path>` line per matched path, in discovery order
— so the printed paths are exactly the matched paths. -/
theorem claim_C1 (parseOk : String → Bool) (fs : FS) (d : String)
    (hne : (globJsonEntries fs d).isEmpty = false)
    (hok : ∀ pe ∈ globJsonEntries fs d, entryOk parseOk pe.2 = true) :
    runMain parseOk fs (some d) =
      (goodEvents ((globJsonEntries fs d).map Prod.fst), Result.exit 0) ∧
    stdoutOf (runMain parseOk fs (some d)).1 =
      ((globJsonEntries fs d).map Prod.fst).map (fun p => "OK: " ++ p) ∧
    exitStatus (runMain parseOk fs (some d)).2 = 0 := by
  have hp := processFiles_allOk parseOk _ hok
  have hrun : runMain parseOk fs (some d) =
      (goodEvents ((globJsonEntries fs d).map Prod.fst), Result.exit 0) := by
    rw [runMain_some, hne]
    simp [hp]
  exact ⟨hrun, by rw [hrun]; exact stdoutOf_goodEvents _, by rw [hrun]; rfl⟩

theorem claim_C1_witness :
    runMain pGood fsAB (some "/tmp/d") =
      (goodEvents ["/tmp/d/a.json", "/tmp/d/b.json"], Result.exit 0) ∧
    stdoutOf (runMain pGood fsAB (some "/tmp/d")).1 =
      ["OK: /tmp/d/a.json", "OK: /tmp/d/b.json"] ∧
    exitStatus (runMain pGood fsAB (some "/tmp/d")).2 = 0 := by
  have h := claim_C1 pGood fsAB "/tmp/d" (by decide) (by decide)
  exact ⟨h.1.trans (by decide), h.2.1.trans (by decide), h.2.2⟩

/-- C2 (amended): when the matched list is some well-formed files followed by
a file whose content fails to decode or parse, the `json.load` exception
propagates out of `main` uncaught and the run crashes — CPython terminates
the process with exit status 1, numerically equal to the defined no-files
exit code, reached through abnormal termination rather than a return.  Every
earlier file has already produced its `OK:` line, the malformed file is
opened but acknowledged by no line, and no later file is opened, parsed, or
reported: the event trace ends at the malformed file's open. -/
theorem claim_C2 (parseOk : String → Bool) (fs : FS) (d : String)
    (pre : List (String × Entry)) (p n c : String) (post : List (String × Entry))
    (hsplit : globJsonEntries fs d = pre ++ (p, Entry.file n c) :: post)
    (hpre : ∀ pe ∈ pre, entryOk parseOk pe.2 = true)
    (hbad : parseOk c = false) :
    runMain parseOk fs (some d) =
      (goodEvents (pre.map Prod.fst) ++ [Event.opened p], Result.crash) ∧
    stdoutOf (runMain parseOk fs (some d)).1 = pre.map (fun pe => "OK: " ++ pe.1) ∧
    exitStatus (runMain parseOk fs (some d)).2 = 1 := by
  have hproc := processFiles_crash parseOk pre (p, Entry.file n c) post hpre hbad
  have hne : (globJsonEntries fs d).isEmpty = false := by
    rw [hsplit]; cases pre <;> simp
  have hrun : runMain parseOk fs (some d) =
      (goodEvents (pre.map Prod.fst) ++ [Event.opened p], Result.crash) := by
    rw [runMain_some, hne]
    simp only [Bool.false_eq_true, if_false, hsplit, hproc]
  refine ⟨hrun, ?_, by rw [hrun]; rfl⟩
  rw [hrun]
  show stdoutOf (goodEvents (pre.map Prod.fst) ++ [Event.opened p]) = _
  rw [stdoutOf_append, stdoutOf_goodEvents]
  simp [stdoutOf, List.map_map, Function.comp]

/-- C2 counterexample: with `a.json` well-formed and `b.json` malformed, the
run terminates as a crash whose process exit status is exactly 1 — the claim
asserts a non-zero status different from the defined exit code 1, which is
false. -/
theorem claim_C2_counterexample :
    (runMain pGood fsBad (some "/tmp/d")).2 = Result.crash ∧
    exitStatus (runMain pGood fsBad (some "/tmp/d")).2 = 1 ∧
    ¬ (exitStatus (runMain pGood fsBad (some "/tmp/d")).2 ≠ 0 ∧
       exitStatus (runMain pGood fsBad (some "/tmp/d")).2 ≠ 1) := by
  decide

theorem claim_C2_witness :
    runMain pGood fsBad (some "/tmp/d") =
      ([Event.opened "/tmp/d/a.json", Event.printed "OK: /tmp/d/a.json",
        Event.opened "/tmp/d/b.json"], Result.crash) ∧
    stdoutOf (runMain pGood fsBad (some "/tmp/d")).1 = ["OK: /tmp/d/a.json"] ∧
    exitStatus (runMain pGood fsBad (some "/tmp/d")).2 = 1 := by
  have h := claim_C2 pGood fsBad "/tmp/d"
    [("/tmp/d/a.json", Entry.file "a.json" "good")]
    "/tmp/d/b.json" "b.json" "bad" [] rfl (by decide) rfl
  exact ⟨h.1.trans (by decide), h.2.1.trans (by decide), h.2.2⟩

/-- C3: when the glob yields zero matches — an empty directory, a directory
with no `*.json` entries, or a nonexistent directory, all of which make
`globJsonEntries` empty — the run prints exactly the single line
`No proof JSON files found in: <input-dir>` containing the literal input
string, returns exit status 1, and opens no file. -/
theorem claim_C3 (parseOk : String → Bool) (fs : FS) (d : String)
    (h : globJsonEntries fs d = []) :
    runMain parseOk fs (some d) =
      ([Event.printed ("No proof JSON files found in: " ++ d)], Result.exit 1) ∧
    (∀ q, Event.opened q ∉ (runMain parseOk fs (some d)).1) ∧
    exitStatus (runMain parseOk fs (some d)).2 = 1 := by
  have hrun : runMain parseOk fs (some d) =
      ([Event.printed ("No proof JSON files found in: " ++ d)], Result.exit 1) := by
    rw [runMain_some, h]; rfl
  refine ⟨hrun, ?_, by rw [hrun]; rfl⟩
  intro q hq
  rw [hrun] at hq
  simp at hq

theorem claim_C3_witness :
    runMain pAlways fsEmptyDir (some "/tmp/e") =
      ([Event.printed "No proof JSON files found in: /tmp/e"], Result.exit 1) ∧
    runMain pAlways [] (some "/tmp/e") =
      ([Event.printed "No proof JSON files found in: /tmp/e"], Result.exit 1) := by
  exact ⟨((claim_C3 pAlways fsEmptyDir "/tmp/e" rfl).1).trans (by decide),
         ((claim_C3 pAlways [] "/tmp/e" rfl).1).trans (by decide)⟩

/-- C4 (amended): exactly the directory entries whose names end in `.json`
and do not begin with a dot are matched — the glob test is literally that
conjunction; every matched entry is a direct child of a matched directory
(no recursion into subdirectories); and a run only ever opens matched paths,
so an entry failing the test is never matched or opened regardless of its
content. -/
theorem claim_C4 :
    (∀ name : String, matchesJsonGlob name =
      (!isHidden name.data && hasSuffix jsonSuffix name.data)) ∧
    (∀ entries : List Entry, matchedEntries entries =
      entries.filter fun e => !isHidden e.name.data && hasSuffix jsonSuffix e.name.data) ∧
    (∀ (fs : FS) (d : String) (pe : String × Entry), pe ∈ globJsonEntries fs d →
      ∃ de, de ∈ matchedDirs fs (globDirname d) ∧ pe.2 ∈ de.2 ∧
        pe.1 = joinPath de.1 pe.2.name) ∧
    (∀ (parseOk : String → Bool) (fs : FS) (d : String) (q : String),
      Event.opened q ∈ (runMain parseOk fs (some d)).1 →
      q ∈ (globJsonEntries fs d).map Prod.fst) := by
  refine ⟨matchesJsonGlob_eq, ?_, ?_, runMain_opened_mem⟩
  · intro entries
    simp only [matchedEntries]
    exact List.filter_congr fun e _ => matchesJsonGlob_eq e.name
  · intro fs d pe h
    obtain ⟨de, hde, hme, hpath⟩ := mem_globAll h
    exact ⟨de, hde, (mem_matchedEntries hme).1, hpath⟩

/-- C4 counterexample: the entry `.a.json` has a name ending in `.json` yet
is not matched (the hidden-file rule rejects names beginning with a dot), so
"exactly the entries whose names end in .json are matched" is false as
stated. -/
theorem claim_C4_counterexample :
    hasSuffix jsonSuffix (String.data ".a.json") = true ∧
    matchedEntries [Entry.file ".a.json" "good"] = [] ∧
    globJsonEntries fsHidden "/tmp/d" = [] :=
  ⟨by decide, rfl, rfl⟩

theorem claim_C4_witness :
    ∃ de, de ∈ matchedDirs fsAB (globDirname "/tmp/d") ∧
      Entry.file "a.json" "good" ∈ de.2 ∧
      "/tmp/d/a.json" = joinPath de.1 (Entry.file "a.json" "good").name := by
  have hm : ("/tmp/d/a.json", Entry.file "a.json" "good") ∈
      globJsonEntries fsAB "/tmp/d" := by
    show _ ∈ [("/tmp/d/a.json", Entry.file "a.json" "good"),
              ("/tmp/d/b.json", Entry.file "b.json" "good")]
    exact List.mem_cons_self _ _
  exact claim_C4.2.2.1 fsAB "/tmp/d" _ hm

/-- C5: with the required `--input-dir` flag omitted, `argparse` surfaces a
usage error and the process exits with status 2 (non-zero) before anything
else happens: the event trace is empty — no directory scan, no glob, no file
access. -/
theorem claim_C5 (parseOk : String → Bool) (fs : FS) :
    runMain parseOk fs none = ([], Result.usage) ∧
    exitStatus (runMain parseOk fs none).2 = 2 ∧
    exitStatus (runMain parseOk fs none).2 ≠ 0 := by
  refine ⟨rfl, rfl, ?_⟩
  show (2 : Nat) ≠ 0
  decide

theorem claim_C5_witness :
    runMain pAlways [] none = ([], Result.usage) ∧
    exitStatus (runMain pAlways [] none).2 = 2 ∧
    exitStatus (runMain pAlways [] none).2 ≠ 0 :=
  claim_C5 pAlways []

/-- C6: the validator is deterministic and persists no state: a second run on
the filesystem left behind by a first run (unchanged, since the program only
opens files for reading and writes nothing) produces the identical event
trace, the identical standard output, and the identical exit status. -/
theorem claim_C6 (parseOk : String → Bool) (fs : FS) (arg : Option String) :
    runMain parseOk (fsAfterRun parseOk fs arg) arg = runMain parseOk fs arg ∧
    stdoutOf (runMain parseOk (fsAfterRun parseOk fs arg) arg).1 =
      stdoutOf (runMain parseOk fs arg).1 ∧
    exitStatus (runMain parseOk (fsAfterRun parseOk fs arg) arg).2 =
      exitStatus (runMain parseOk fs arg).2 :=
  ⟨rfl, rfl, rfl⟩

theorem claim_C6_witness :
    runMain pGood (fsAfterRun pGood fsAB (some "/tmp/d")) (some "/tmp/d") =
      runMain pGood fsAB (some "/tmp/d") :=
  (claim_C6 pGood fsAB (some "/tmp/d")).1

/-- C7: noninterference of JSON content — on two filesystems with the same
directory names and the same entry names and kinds (file contents arbitrary),
when every matched file parses successfully in both runs, the two runs have
identical event traces and results, hence identical standard output and exit
codes: parsed content is discarded and never influences the output. -/
theorem claim_C7 (parseOk : String → Bool) (fs1 fs2 : FS) (d : String)
    (hsh : fsShapeEq fs1 fs2 = true)
    (h1 : ∀ pe ∈ globJsonEntries fs1 d, entryOk parseOk pe.2 = true)
    (h2 : ∀ pe ∈ globJsonEntries fs2 d, entryOk parseOk pe.2 = true) :
    runMain parseOk fs1 (some d) = runMain parseOk fs2 (some d) := by
  have hpaths := globJsonEntries_paths d hsh
  have hemp := isEmpty_of_mapFst hpaths
  rw [runMain_some, runMain_some, hemp]
  by_cases he : (globJsonEntries fs2 d).isEmpty = true
  · simp [he]
  · rw [Bool.not_eq_true] at he
    simp only [he, Bool.false_eq_true, if_false]
    rw [processFiles_allOk parseOk _ h1, processFiles_allOk parseOk _ h2, hpaths]

theorem claim_C7_witness :
    runMain pTwo fsOne1 (some "/tmp/d") = runMain pTwo fsOne2 (some "/tmp/d") :=
  claim_C7 pTwo fsOne1 fsOne2 "/tmp/d" (by decide) (by decide) (by decide)

/-- C8: the pattern `*.json` never matches a hidden file: a name beginning
with a dot is rejected by the matcher even when it ends in `.json`; every
matched entry's name does pass the matcher; and every path a run opens is a
matched path — so a dot-initial file is never matched and never opened. -/
theorem claim_C8 :
    (∀ name : String, isHidden name.data = true → matchesJsonGlob name = false) ∧
    (∀ (fs : FS) (d : String) (pe : String × Entry), pe ∈ globJsonEntries fs d →
      matchesJsonGlob pe.2.name = true) ∧
    (∀ (parseOk : String → Bool) (fs : FS) (d : String) (q : String),
      Event.opened q ∈ (runMain parseOk fs (some d)).1 →
      q ∈ (globJsonEntries fs d).map Prod.fst) := by
  refine ⟨hidden_not_matched, ?_, runMain_opened_mem⟩
  intro fs d pe h
  obtain ⟨de, hde, hme, hpath⟩ := mem_globAll h
  exact (mem_matchedEntries hme).2

theorem claim_C8_witness :
    matchesJsonGlob ".a.json" = false ∧ matchesJsonGlob "a.json" = true := by
  constructor
  · exact claim_C8.1 ".a.json" (by decide)
  · have hm : ("/tmp/d/a.json", Entry.file "a.json" "good") ∈
        globJsonEntries fsAB "/tmp/d" := by
      show _ ∈ [("/tmp/d/a.json", Entry.file "a.json" "good"),
                ("/tmp/d/b.json", Entry.file "b.json" "good")]
      exact List.mem_cons_self _ _
    exact claim_C8.2.1 fsAB "/tmp/d" _ hm

/-- C9 (amended): a subdirectory whose non-hidden name ends in `.json` is
matched by the glob, and when the loop reaches it the attempt to open it as a
text file raises an uncaught `IsADirectoryError`: the run crashes right after
the open rather than skipping the entry — CPython terminates the process with
exit status 1 — with earlier well-formed files having produced their `OK:`
lines and nothing later opened or reported. -/
theorem claim_C9 :
    (∀ (entries : List Entry) (name : String) (children : List Entry),
      isHidden name.data = false → hasSuffix jsonSuffix name.data = true →
      Entry.dir name children ∈ entries →
      Entry.dir name children ∈ matchedEntries entries) ∧
    (∀ (parseOk : String → Bool) (fs : FS) (d : String)
      (pre : List (String × Entry)) (p nm : String) (children : List Entry)
      (post : List (String × Entry)),
      globJsonEntries fs d = pre ++ (p, Entry.dir nm children) :: post →
      (∀ pe ∈ pre, entryOk parseOk pe.2 = true) →
      runMain parseOk fs (some d) =
        (goodEvents (pre.map Prod.fst) ++ [Event.opened p], Result.crash) ∧
      exitStatus (runMain parseOk fs (some d)).2 = 1) := by
  constructor
  · intro entries name children hh hs hmem
    have hmatch : matchesJsonGlob (Entry.dir name children).name = true := by
      rw [matchesJsonGlob_eq]
      simp [Entry.name, hh, hs]
    exact List.mem_filter.mpr ⟨hmem, hmatch⟩
  · intro parseOk fs d pre p nm children post hsplit hpre
    have hproc := processFiles_crash parseOk pre (p, Entry.dir nm children) post hpre rfl
    have hne : (globJsonEntries fs d).isEmpty = false := by
      rw [hsplit]; cases pre <;> simp
    have hrun : runMain parseOk fs (some d) =
        (goodEvents (pre.map Prod.fst) ++ [Event.opened p], Result.crash) := by
      rw [runMain_some, hne]
      simp only [Bool.false_eq_true, if_false, hsplit, hproc]
    exact ⟨hrun, by rw [hrun]; rfl⟩

/-- C9 counterexample: a subdirectory named `sub.json` is matched and opened,
and the run terminates as a crash whose process exit status is exactly 1 —
the claim asserts a non-zero, non-1 status, which is false. -/
theorem claim_C9_counterexample :
    runMain pAlways fsSub (some "/tmp/d") =
      ([Event.opened "/tmp/d/sub.json"], Result.crash) ∧
    exitStatus (runMain pAlways fsSub (some "/tmp/d")).2 = 1 ∧
    ¬ (exitStatus (runMain pAlways fsSub (some "/tmp/d")).2 ≠ 0 ∧
       exitStatus (runMain pAlways fsSub (some "/tmp/d")).2 ≠ 1) := by
  decide

theorem claim_C9_witness :
    Entry.dir "sub.json" [] ∈ matchedEntries [Entry.dir "sub.json" []] ∧
    runMain pAlways fsSub (some "/tmp/d") =
      ([Event.opened "/tmp/d/sub.json"], Result.crash) := by
  constructor
  · exact claim_C9.1 [Entry.dir "sub.json" []] "sub.json" [] (by decide) (by decide)
      (List.mem_cons_self _ _)
  · have h := (claim_C9.2 pAlways fsSub "/tmp/d" [] "/tmp/d/sub.json" "sub.json" [] []
      rfl (by simp)).1
    exact h.trans (by decide)

/-- C10: glob metacharacters in the `--input-dir` string act as wildcards:
with sibling directories `d1` and `d2` both present, the input string `d*`
(which is not the literal name of either) has magic, matches both
directories, and the matched file set spans the two distinct directories. -/
theorem claim_C10 :
    hasMagic "d*" = true ∧
    globJsonEntries fsSpan "d*" =
      [("d1/a.json", Entry.file "a.json" "good"),
       ("d2/b.json", Entry.file "b.json" "good")] ∧
    ("d1" : String) ≠ "d2" ∧ ("d*" : String) ≠ "d1" ∧ ("d*" : String) ≠ "d2" :=
  ⟨by decide, rfl, by decide, by decide, by decide⟩

end VcpValidator
